import Mathlib

/-!
Verification of the curator queue/driver slice.

The queue's dispatch procedure `remoteUnordered.Next` (queue/remote.go) is
embedded as a function over an explicit list of events delivered to the
`select` statement (context cancellation or a candidate job arriving on the
internal channel) together with a model of the pluggable storage driver.
The function returns the dispatch outcome and the ordered trace of driver
calls and log emissions the Go code performs.
-/

namespace Curator

/-- A job as the queue sees it: identity and its completion flag
(`Status.Completed`).  The queue never inspects the payload. -/
structure Job where
  id : String
  completed : Bool
  deriving DecidableEq, Repr

/-- Log severities used by the grip calls in the embedded code. -/
inductive LogLevel where
  | debug
  | notice
  | info
  | warning
  | error
  deriving DecidableEq, Repr

/-- One observable action of `Next`: a driver call or a log emission.
`unlockCall` carries an `Option Job` because the Go variable passed to
`Unlock` is an interface value that can be nil. -/
inductive Ev where
  | lockAttempt (j : Job) (ok : Bool)
  | getAttempt (id : String) (found : Bool)
  | unlockCall (j : Option Job)
  | log (lvl : LogLevel)
  deriving DecidableEq, Repr

/-- Modelled from the spec: the Driver contract (spec section 4.2); the
driver implementation is not part of this slice.  `lockOk` says whether
`Lock` succeeds for a job, `get` returns the authoritative job for an id or
nothing (the `NotFound` case, in which Go yields a nil job value), and
`unlockErr` says whether `Unlock` returns an error for the value passed. -/
structure DriverModel where
  lockOk : Job → Bool
  get : String → Option Job
  unlockErr : Option Job → Bool

/-- An event delivered to the `select` in `Next`: either the context is
done, or a candidate job is read from the internal channel. -/
inductive NextInput where
  | cancel
  | candidate (j : Job)
  deriving DecidableEq, Repr

/-- Outcome of a `Next` call on a finite event list: returned nil on
cancellation, returned a job, or still blocked waiting for events. -/
inductive NextOutcome where
  | canceled
  | dispatched (j : Job)
  | blocked
  deriving DecidableEq, Repr

/-- Embedding of `remoteUnordered.Next` (queue/remote.go lines 45-73).
For each candidate: attempt `driver.Lock`; on error log a warning and
continue.  Then reassign the loop variable with `driver.Get(job.ID())`;
on error call `driver.Unlock` on the reassigned (now nil) value inside
`grip.CatchNotice`, log a warning, and continue.  Otherwise log at debug
level and return the job obtained from `Get`. -/
def next (d : DriverModel) : List NextInput → NextOutcome × List Ev
  | [] => (.blocked, [])
  | .cancel :: _ => (.canceled, [])
  | .candidate j :: rest =>
    if d.lockOk j then
      match d.get j.id with
      | some fresh =>
        (.dispatched fresh, [.lockAttempt j true, .getAttempt j.id true, .log .debug])
      | none =>
        let r := next d rest
        (r.1,
          .lockAttempt j true :: .getAttempt j.id false :: .unlockCall none ::
            ((if d.unlockErr none then [Ev.log .notice] else []) ++ Ev.log .warning :: r.2))
    else
      let r := next d rest
      (r.1, .lockAttempt j false :: .log .warning :: r.2)

/-- Number of successful `Lock` calls recorded in a trace. -/
def countLockOk (t : List Ev) : Nat :=
  t.countP fun e => match e with | .lockAttempt _ true => true | _ => false

/-- Number of `Unlock` calls recorded in a trace. -/
def countUnlocks (t : List Ev) : Nat :=
  t.countP fun e => match e with | .unlockCall _ => true | _ => false

/-- 1 when the outcome carries a dispatched job, else 0. -/
def dispatchedCount : NextOutcome → Nat
  | .dispatched _ => 1
  | _ => 0

theorem next_lock_balance (d : DriverModel) (ins : List NextInput) :
    countLockOk (next d ins).2 = countUnlocks (next d ins).2 + dispatchedCount (next d ins).1 := by
  induction ins with
  | nil => simp [next, countLockOk, countUnlocks, dispatchedCount]
  | cons i rest ih =>
    cases i with
    | cancel => simp [next, countLockOk, countUnlocks, dispatchedCount]
    | candidate j =>
      by_cases hl : d.lockOk j
      · cases hg : d.get j.id with
        | some fresh =>
          simp [next, hl, hg, countLockOk, countUnlocks, dispatchedCount]
        | none =>
          by_cases hu : d.unlockErr none <;>
            simp [next, hl, hg, hu, countLockOk, countUnlocks, dispatchedCount,
              List.countP_cons, List.countP_append] at ih ⊢ <;> omega
      · simp [next, hl, countLockOk, countUnlocks, dispatchedCount, List.countP_cons] at ih ⊢
        omega

theorem next_no_error_log (d : DriverModel) (ins : List NextInput) :
    Ev.log .error ∉ (next d ins).2 := by
  induction ins with
  | nil => simp [next]
  | cons i rest ih =>
    cases i with
    | cancel => simp [next]
    | candidate j =>
      by_cases hl : d.lockOk j
      · cases hg : d.get j.id with
        | some fresh => simp [next, hl, hg]
        | none =>
          by_cases hu : d.unlockErr none <;>
            simp [next, hl, hg, hu, List.mem_cons, List.mem_append] <;> exact ih
      · simp [next, hl, List.mem_cons]
        exact ih

theorem next_unlock_arg_none (d : DriverModel) (ins : List NextInput) (x : Option Job)
    (hx : Ev.unlockCall x ∈ (next d ins).2) : x = none := by
  induction ins with
  | nil => simp [next] at hx
  | cons i rest ih =>
    cases i with
    | cancel => simp [next] at hx
    | candidate j =>
      by_cases hl : d.lockOk j
      · cases hg : d.get j.id with
        | some fresh => simp [next, hl, hg] at hx
        | none =>
          by_cases hu : d.unlockErr none <;>
            simp [next, hl, hg, hu, List.mem_cons, List.mem_append] at hx <;>
            rcases hx with h | h
          · exact h
          · exact ih h
          · exact h
          · exact ih h
      · simp [next, hl, List.mem_cons] at hx
        exact ih hx

theorem next_canceled_has_cancel (d : DriverModel) (ins : List NextInput)
    (h : (next d ins).1 = .canceled) : NextInput.cancel ∈ ins := by
  induction ins with
  | nil => simp [next] at h
  | cons i rest ih =>
    cases i with
    | cancel => exact List.mem_cons_self _ _
    | candidate j =>
      by_cases hl : d.lockOk j
      · cases hg : d.get j.id with
        | some fresh => simp [next, hl, hg] at h
        | none =>
          simp only [next, hl, hg] at h
          exact List.mem_cons_of_mem _ (ih h)
      · simp only [next, hl] at h
        simp at h
        exact List.mem_cons_of_mem _ (ih h)

theorem next_dispatched_from_get (d : DriverModel) (ins : List NextInput) (ret : Job)
    (h : (next d ins).1 = .dispatched ret) :
    ∃ j, NextInput.candidate j ∈ ins ∧ d.lockOk j = true ∧ d.get j.id = some ret := by
  induction ins with
  | nil => simp [next] at h
  | cons i rest ih =>
    cases i with
    | cancel => simp [next] at h
    | candidate j =>
      by_cases hl : d.lockOk j
      · cases hg : d.get j.id with
        | some fresh =>
          simp [next, hl, hg] at h
          exact ⟨j, List.mem_cons_self _ _, hl, h ▸ hg⟩
        | none =>
          simp [next, hl, hg] at h
          obtain ⟨c, hc, hlc, hgc⟩ := ih h
          exact ⟨c, List.mem_cons_of_mem _ hc, hlc, hgc⟩
      · simp [next, hl] at h
        obtain ⟨c, hc, hlc, hgc⟩ := ih h
        exact ⟨c, List.mem_cons_of_mem _ hc, hlc, hgc⟩

/-- C1: counterexample.  With a driver whose `Get` returns a completed job
(the job completed after the channel feed was populated, and its lock was
released on completion so `Lock` succeeds), `Next` locks, rehydrates and
returns that completed job: the code of `Next` contains no completed-status
check after `Get`, so the rehydration step does not enforce the claim. -/
theorem next_returns_completed_job :
    (next ⟨fun _ => true, fun _ => some ⟨"a", true⟩, fun _ => false⟩
        [NextInput.candidate ⟨"a", true⟩]).1 =
      NextOutcome.dispatched ⟨"a", true⟩ ∧
    (Job.mk "a" true).completed = true := by
  exact ⟨by decide, rfl⟩

/-- C1: amended claim.  `Next` dispatches exactly the job `Driver.Get`
returns and performs no completed check of its own, so it never returns a
completed job provided the driver's `Get` never yields one; exclusion of
completed jobs rests on the feed and driver, not on a final re-check in
`Next`. -/
theorem next_completed_only_if_get_completed (d : DriverModel) (ins : List NextInput)
    (ret : Job) (hget : ∀ i j, d.get i = some j → j.completed = false)
    (h : (next d ins).1 = .dispatched ret) : ret.completed = false := by
  obtain ⟨j, -, -, hgj⟩ := next_dispatched_from_get d ins ret h
  exact hget j.id ret hgj

theorem next_completed_only_if_get_completed_witness :
    (Job.mk "b" false).completed = false :=
  next_completed_only_if_get_completed
    ⟨fun _ => true, fun _ => some ⟨"b", false⟩, fun _ => false⟩
    [NextInput.candidate ⟨"b", false⟩] ⟨"b", false⟩
    (fun _ _ h => Option.some.inj h ▸ rfl)
    (by decide)

/-- C2: counterexample.  When `Get` fails after a successful `Lock`, the
single `Unlock` that `Next` issues receives the reassigned (nil) job value
returned by the failed `Get`, not the candidate that was locked: the trace
holds `unlockCall none` and no unlock of the locked candidate. -/
theorem next_unlock_not_candidate :
    (next ⟨fun _ => true, fun _ => none, fun _ => false⟩
        [NextInput.candidate ⟨"a", false⟩]).2 =
      [Ev.lockAttempt ⟨"a", false⟩ true, Ev.getAttempt "a" false,
        Ev.unlockCall none, Ev.log .warning] ∧
    Ev.unlockCall (some ⟨"a", false⟩) ∉
      (next ⟨fun _ => true, fun _ => none, fun _ => false⟩
        [NextInput.candidate ⟨"a", false⟩]).2 := by
  exact ⟨by decide, by decide⟩

/-- C2: amended claim.  Every execution of `Next` balances its locks: the
number of successful `Lock` calls equals the number of `Unlock` calls plus
one exactly when a job is dispatched (that job's lock is held at return);
but the argument of every `Unlock` call is the nil value produced by the
failed `Get`, never the locked candidate itself. -/
theorem next_lock_unlock_balance (d : DriverModel) (ins : List NextInput) (x : Option Job)
    (hx : Ev.unlockCall x ∈ (next d ins).2) :
    countLockOk (next d ins).2 = countUnlocks (next d ins).2 + dispatchedCount (next d ins).1 ∧
    x = none :=
  ⟨next_lock_balance d ins, next_unlock_arg_none d ins x hx⟩

theorem next_lock_unlock_balance_witness :
    countLockOk
        (next ⟨fun _ => true, fun _ => none, fun _ => true⟩
          [NextInput.candidate ⟨"b", false⟩]).2 =
      countUnlocks
          (next ⟨fun _ => true, fun _ => none, fun _ => true⟩
            [NextInput.candidate ⟨"b", false⟩]).2 +
        dispatchedCount
          (next ⟨fun _ => true, fun _ => none, fun _ => true⟩
            [NextInput.candidate ⟨"b", false⟩]).1 ∧
    (none : Option Job) = none :=
  next_lock_unlock_balance ⟨fun _ => true, fun _ => none, fun _ => true⟩
    [NextInput.candidate ⟨"b", false⟩] none (by decide)

/-- C3: a failed `Lock` on a candidate only logs a warning (never an error)
and continues the loop with the remaining events: the failure is not
surfaced to the caller and does not abort the dispatch loop. -/
theorem next_lock_failure_continues (d : DriverModel) (j : Job) (rest : List NextInput)
    (h : d.lockOk j = false) :
    next d (NextInput.candidate j :: rest) =
      ((next d rest).1, Ev.lockAttempt j false :: Ev.log .warning :: (next d rest).2) ∧
    Ev.log .error ∉ (next d (NextInput.candidate j :: rest)).2 := by
  refine ⟨?_, next_no_error_log d _⟩
  simp [next, h]

theorem next_lock_failure_continues_witness :
    next ⟨fun _ => false, fun _ => none, fun _ => false⟩
        [NextInput.candidate ⟨"c", false⟩] =
      ((next ⟨fun _ => false, fun _ => none, fun _ => false⟩ []).1,
        Ev.lockAttempt ⟨"c", false⟩ false :: Ev.log .warning ::
          (next ⟨fun _ => false, fun _ => none, fun _ => false⟩ []).2) ∧
    Ev.log .error ∉
      (next ⟨fun _ => false, fun _ => none, fun _ => false⟩
        [NextInput.candidate ⟨"c", false⟩]).2 :=
  next_lock_failure_continues ⟨fun _ => false, fun _ => none, fun _ => false⟩
    ⟨"c", false⟩ [] rfl

/-- C4: on a cancellation event `Next` immediately returns nil (no job, no
further driver calls), even when no candidate is available; and a nil
return with outcome canceled happens only when a cancellation event
occurred among the delivered events. -/
theorem next_cancellation (d : DriverModel) (rest ins : List NextInput)
    (h : (next d ins).1 = .canceled) :
    next d (NextInput.cancel :: rest) = (.canceled, []) ∧ NextInput.cancel ∈ ins :=
  ⟨rfl, next_canceled_has_cancel d ins h⟩

theorem next_cancellation_witness :
    next ⟨fun _ => true, fun _ => none, fun _ => false⟩ [NextInput.cancel] =
      (NextOutcome.canceled, []) ∧ NextInput.cancel ∈ [NextInput.cancel] :=
  next_cancellation ⟨fun _ => true, fun _ => none, fun _ => false⟩ []
    [NextInput.cancel] (by decide)

/-- C5: a dispatched job is always the rehydrated value obtained from
`Driver.Get` after a successful `Lock` on some candidate from the channel
(never the channel value itself), and at the moment of return the trace
holds one more successful lock than unlocks: the dispatched job's lock is
held. -/
theorem next_dispatch_rehydrated (d : DriverModel) (ins : List NextInput) (ret : Job)
    (h : (next d ins).1 = .dispatched ret) :
    (∃ j, NextInput.candidate j ∈ ins ∧ d.lockOk j = true ∧ d.get j.id = some ret) ∧
    countLockOk (next d ins).2 = countUnlocks (next d ins).2 + 1 := by
  refine ⟨next_dispatched_from_get d ins ret h, ?_⟩
  have hb := next_lock_balance d ins
  rw [h] at hb
  simpa [dispatchedCount] using hb

theorem next_dispatch_rehydrated_witness :
    ∃ j, NextInput.candidate j ∈ [NextInput.candidate (Job.mk "a" true)] ∧
      DriverModel.lockOk ⟨fun _ => true, fun _ => some ⟨"a", false⟩, fun _ => false⟩ j = true ∧
      DriverModel.get ⟨fun _ => true, fun _ => some ⟨"a", false⟩, fun _ => false⟩ j.id =
        some (Job.mk "a" false) :=
  (next_dispatch_rehydrated ⟨fun _ => true, fun _ => some ⟨"a", false⟩, fun _ => false⟩
    [NextInput.candidate ⟨"a", true⟩] ⟨"a", false⟩ (by decide)).1

/-!
Filesystem model for the repobuilder job (`createArchDirs`,
`gzipAndWriteToFile`) and the jasper file utilities
(`MakeEnclosingDirectories`, `WriteFile`).  A path is its list of
segments: `filepath.Join` appends a segment and `filepath.Dir` drops the
last one.
-/

/-- A filesystem path as its list of segments. -/
abbrev Path := List String

/-- Contents of a file: the raw bytes of a string, or the gzip compression
(at best-compression level) of a string. -/
inductive FileContent where
  | raw (data : String)
  | gzipped (original : String)
  deriving DecidableEq, Repr

/-- Filesystem state: the directories present and the files with their
contents. -/
structure FS where
  dirs : List Path
  files : List (Path × FileContent)
  deriving DecidableEq, Repr

/-- Fault model for filesystem calls: which `MkdirAll` targets and which
write targets (`ioutil.WriteFile` / `os.Create`) fail. -/
structure FaultModel where
  mkdirFails : Path → Bool
  writeFails : Path → Bool

/-- Errors produced by the modelled filesystem helpers; `wrapped` is
`errors.Wrap`, pairing a message with the wrapped error. -/
inductive FsErr where
  | mkdirFailed (p : Path)
  | notDirectory (p : Path)
  | writeFailed (p : Path)
  | createFailed (p : Path)
  | copyFailed (p : Path)
  | wrapped (msg : String) (e : FsErr)
  deriving DecidableEq, Repr

/-- True when `os.Stat` finds something at the path (a directory or a
file); `os.IsNotExist` holds exactly when this is false. -/
def pathExists (fs : FS) (p : Path) : Bool :=
  fs.dirs.contains p || fs.files.any fun f => f.1 == p

/-- The chain of directories `os.MkdirAll` ensures: every nonempty initial
segment of the path. -/
def initSegs (p : Path) : List Path :=
  (List.range p.length).map fun i => p.take (i + 1)

/-- `os.MkdirAll`: create the directory and its whole parent chain, or
fail per the fault model leaving the state unchanged. -/
def mkdirAll (fm : FaultModel) (fs : FS) (p : Path) : FS × Option FsErr :=
  if fm.mkdirFails p then (fs, some (.mkdirFailed p))
  else ({ fs with dirs := fs.dirs ++ initSegs p }, none)

/-- Store contents at a path, replacing any previous file there. -/
def setFile (files : List (Path × FileContent)) (p : Path) (c : FileContent) :
    List (Path × FileContent) :=
  files.filter (fun f => f.1 != p) ++ [(p, c)]

/-- `ioutil.WriteFile`: write contents at the path, or fail per the fault
model leaving the state unchanged. -/
def writeFileBytes (fm : FaultModel) (fs : FS) (p : Path) (c : FileContent) :
    FS × Option FsErr :=
  if fm.writeFails p then (fs, some (.writeFailed p))
  else ({ fs with files := setFile fs.files p c }, none)

/-- Embedding of `gzipAndWriteToFile` (repobuilder): the gzip writer over
an in-memory byte buffer cannot fail at a valid compression level, so the
compressed bytes are written to the file and only the final write can
fail, its error wrapped with the source's message. -/
def gzipAndWriteToFile (fm : FaultModel) (fs : FS) (fileName : Path) (content : String) :
    FS × Option FsErr :=
  match writeFileBytes fm fs fileName (.gzipped content) with
  | (fs1, none) => (fs1, none)
  | (fs1, some e) => (fs1, some (.wrapped "writing compressed file" e))

/-- One iteration of the loop of `BuildDEBRepoJob.createArchDirs` for a
single architecture: when `binary-<arch>` does not exist, create it, touch
an empty `Packages` file, and write a gzip-compressed empty `Packages.gz`;
each failure goes to the catcher and the loop continues. -/
def archDirStep (fm : FaultModel) (fs : FS) (basePath : Path) (arch : String) :
    FS × List FsErr :=
  let path := basePath ++ ["binary-" ++ arch]
  if pathExists fs path then (fs, [])
  else
    match mkdirAll fm fs path with
    | (_, some e) => (fs, [e])
    | (fs1, none) =>
      match writeFileBytes fm fs1 (path ++ ["Packages"]) (.raw "") with
      | (_, some e) => (fs1, [e])
      | (fs2, none) =>
        match gzipAndWriteToFile fm fs2 (path ++ ["Packages.gz"]) "" with
        | (fs3, none) => (fs3, [])
        | (fs3, some e) => (fs3, [e])

/-- Result of `createArchDirs`: final filesystem, the catcher's ordered
failures, and the architectures the loop body ran for. -/
structure ArchDirsResult where
  fs : FS
  errs : List FsErr
  visited : List String
  deriving DecidableEq, Repr

/-- Embedding of `BuildDEBRepoJob.createArchDirs`: iterate over the
distro's architectures without ever exiting early, appending each
iteration's failures in order to the catcher. -/
def createArchDirs (fm : FaultModel) (fs : FS) (basePath : Path) :
    List String → ArchDirsResult
  | [] => ⟨fs, [], []⟩
  | arch :: rest =>
    let s := archDirStep fm fs basePath arch
    let r := createArchDirs fm s.1 basePath rest
    ⟨r.fs, s.2 ++ r.errs, arch :: r.visited⟩

/-- `grip.Catcher.Resolve`: fold the accumulated failures into a single
reportable value, or nothing when none were recorded. -/
def resolve (errs : List FsErr) : Option (List FsErr) :=
  if errs.isEmpty then none else some errs

/-- `os.Stat` classification used by `MakeEnclosingDirectories`: nothing
when the path does not exist, otherwise whether it is a directory. -/
def statIsDir (fs : FS) (p : Path) : Option Bool :=
  if fs.dirs.contains p then some true
  else if fs.files.any (fun f => f.1 == p) then some false
  else none

/-- Embedding of jasper's `MakeEnclosingDirectories`: create the directory
chain when the path does not exist; fail when the path exists and is not a
directory; otherwise do nothing. -/
def MakeEnclosingDirectories (fm : FaultModel) (fs : FS) (path : Path) :
    FS × Option FsErr :=
  match statIsDir fs path with
  | none => mkdirAll fm fs path
  | some true => (fs, none)
  | some false => (fs, some (.notDirectory path))

/-- Embedding of jasper's `WriteFile`: ensure the enclosing directories of
the target exist (wrapping a failure with the source's message), create
(truncate) the file, then copy the reader's contents into it.  A reader of
`none` is one whose `Read` fails mid-copy. -/
def WriteFile (fm : FaultModel) (fs : FS) (reader : Option String) (path : Path) :
    FS × Option FsErr :=
  match MakeEnclosingDirectories fm fs path.dropLast with
  | (_, some e) => (fs, some (.wrapped "problem making enclosing directories" e))
  | (fs1, none) =>
    if fm.writeFails path then (fs1, some (.createFailed path))
    else
      let fs2 : FS := { fs1 with files := setFile fs1.files path (.raw "") }
      match reader with
      | none => (fs2, some (.copyFailed path))
      | some data => ({ fs2 with files := setFile fs2.files path (.raw data) }, none)

/-- The queue value built by `NewRemoteUnordered`; `runnerSet` records
whether `SetRunner` succeeded in attaching the worker pool. -/
structure RemoteUnordered where
  workerPoolSize : Int
  runnerSet : Bool
  deriving DecidableEq, Repr

/-- Embedding of `NewRemoteUnordered` (queue/remote.go lines 29-39): build
the queue, attach a local worker pool of the requested size
(`grip.CatchError` logs at error level when `SetRunner` fails and nothing
otherwise), log the creation at info level, and return the queue.  The
`Option` mirrors the nilable Go interface return value. -/
def NewRemoteUnordered (size : Int) (setRunnerErr : Bool) :
    Option RemoteUnordered × List LogLevel :=
  (some { workerPoolSize := size, runnerSet := !setRunnerErr },
    (if setRunnerErr then [LogLevel.error] else []) ++ [LogLevel.info])

/-- The fields of `BuildDEBRepoJob` that its constructor sets. -/
structure BuildDEBRepoJob where
  release : String
  workSpace : String
  jobTypeName : String
  jobTypeVersion : Int
  arch : String
  name : String
  packagePaths : List String
  version : String
  profile : String
  deriving DecidableEq, Repr

/-- Embedding of `NewBuildDEBRepo` (repobuilder).  `parseVersion`
abstracts `curator.NewMongoDBVersion` and `getwd` abstracts `os.Getwd`,
both of which abort construction on failure; `jobNumber` abstracts
`job.GetNumber()`.  The architecture argument is normalized exactly as the
source does. -/
def NewBuildDEBRepo (parseVersion : String → Option String) (getwd : Option String)
    (jobNumber : Nat) (version arch profile : String) (pkgs : List String) :
    Option BuildDEBRepoJob :=
  match parseVersion version with
  | none => none
  | some rel =>
    match getwd with
    | none => none
    | some wd =>
      some
        { release := rel
          workSpace := wd
          jobTypeName := "build-deb-repo"
          jobTypeVersion := 0
          arch :=
            if arch = "x86_64" then "amd64"
            else if arch = "ppc64le" then "ppc64el"
            else arch
          name := "build-deb-repo." ++ toString jobNumber
          packagePaths := pkgs
          version := version
          profile := profile }

/-- C6: the loop of `createArchDirs` visits every architecture of the
distro even when earlier iterations fail, appending each iteration's
failures in order, and the folded catcher result is nothing exactly when
no failure was recorded during the whole pass. -/
theorem createArchDirs_catcher (fm : FaultModel) (fs : FS) (basePath : Path)
    (archs : List String) :
    (createArchDirs fm fs basePath archs).visited = archs ∧
    (resolve (createArchDirs fm fs basePath archs).errs = none ↔
      (createArchDirs fm fs basePath archs).errs = []) := by
  constructor
  · induction archs generalizing fs with
    | nil => rfl
    | cons a rest ih => simp [createArchDirs, ih]
  · by_cases h : (createArchDirs fm fs basePath archs).errs = [] <;>
      simp [resolve, h]

/-- C8: `NewRemoteUnordered` returns a non-nil queue for every requested
size; a `SetRunner` failure is observable only as an error-level log
entry, never in the returned value, so the constructor has no error path
at its public interface. -/
theorem NewRemoteUnordered_total (size : Int) (setRunnerErr : Bool) :
    ((NewRemoteUnordered size setRunnerErr).1).isSome = true ∧
    (LogLevel.error ∈ (NewRemoteUnordered size setRunnerErr).2 ↔ setRunnerErr = true) := by
  cases setRunnerErr <;> simp [NewRemoteUnordered]

/-- C9: `NewBuildDEBRepo` normalizes the architecture of the job it
builds: "x86_64" is stored as "amd64", "ppc64le" as "ppc64el", and every
other architecture string is stored unchanged. -/
theorem NewBuildDEBRepo_arch_normalization (parseVersion : String → Option String)
    (wd : String) (n : Nat) (version profile : String) (pkgs : List String)
    (rel : String) (hv : parseVersion version = some rel) :
    (∀ j, NewBuildDEBRepo parseVersion (some wd) n version "x86_64" profile pkgs = some j →
      j.arch = "amd64") ∧
    (∀ j, NewBuildDEBRepo parseVersion (some wd) n version "ppc64le" profile pkgs = some j →
      j.arch = "ppc64el") ∧
    (∀ a j, a ≠ "x86_64" → a ≠ "ppc64le" →
      NewBuildDEBRepo parseVersion (some wd) n version a profile pkgs = some j →
      j.arch = a) := by
  refine ⟨?_, ?_, ?_⟩
  · intro j h
    simp [NewBuildDEBRepo, hv] at h
    simp [← h]
  · intro j h
    simp [NewBuildDEBRepo, hv] at h
    simp [← h]
  · intro a j ha1 ha2 h
    simp [NewBuildDEBRepo, hv] at h
    simp [← h, ha1, ha2]

theorem NewBuildDEBRepo_arch_normalization_witness :
    BuildDEBRepoJob.arch
        ⟨"3.0", "w", "build-deb-repo", 0, "amd64", "build-deb-repo.0", [], "3.0.0", "p"⟩ =
      "amd64" :=
  (NewBuildDEBRepo_arch_normalization (fun _ => some "3.0") "w" 0 "3.0.0" "p" [] "3.0"
      rfl).1
    ⟨"3.0", "w", "build-deb-repo", 0, "amd64", "build-deb-repo.0", [], "3.0.0", "p"⟩
    (by decide)

/-- C10: an iteration of `createArchDirs` whose `binary-<arch>` directory
already exists performs no filesystem write and records no error (the
whole-loop result equals that of the remaining architectures), while for
an absent directory with no injected faults it creates the directory
chain, an empty `Packages` file and a gzip-compressed empty
`Packages.gz`. -/
theorem createArchDirs_frame (fm : FaultModel) (fs : FS) (basePath : Path)
    (arch : String) (rest : List String)
    (hex : pathExists fs (basePath ++ ["binary-" ++ arch]) = true) :
    (createArchDirs fm fs basePath (arch :: rest)).fs =
        (createArchDirs fm fs basePath rest).fs ∧
    (createArchDirs fm fs basePath (arch :: rest)).errs =
        (createArchDirs fm fs basePath rest).errs ∧
    (∀ fs2 : FS, pathExists fs2 (basePath ++ ["binary-" ++ arch]) = false →
      fm.mkdirFails (basePath ++ ["binary-" ++ arch]) = false →
      fm.writeFails (basePath ++ ["binary-" ++ arch] ++ ["Packages"]) = false →
      fm.writeFails (basePath ++ ["binary-" ++ arch] ++ ["Packages.gz"]) = false →
      archDirStep fm fs2 basePath arch =
        ({ dirs := fs2.dirs ++ initSegs (basePath ++ ["binary-" ++ arch]),
            files := setFile
              (setFile fs2.files (basePath ++ ["binary-" ++ arch] ++ ["Packages"])
                (.raw ""))
              (basePath ++ ["binary-" ++ arch] ++ ["Packages.gz"]) (.gzipped "") },
          [])) := by
  refine ⟨?_, ?_, ?_⟩
  · simp [createArchDirs, archDirStep, hex]
  · simp [createArchDirs, archDirStep, hex]
  · intro fs2 hne hm hw1 hw2
    simp only [List.append_assoc, List.singleton_append, List.cons_append,
      List.nil_append] at hw1 hw2
    simp [archDirStep, hne, mkdirAll, hm, writeFileBytes, hw1, hw2, gzipAndWriteToFile]

theorem createArchDirs_frame_witness :
    (createArchDirs ⟨fun _ => false, fun _ => false⟩ ⟨[["repo", "binary-amd64"]], []⟩
        ["repo"] ["amd64"]).fs =
      (createArchDirs ⟨fun _ => false, fun _ => false⟩ ⟨[["repo", "binary-amd64"]], []⟩
        ["repo"] []).fs :=
  (createArchDirs_frame ⟨fun _ => false, fun _ => false⟩ ⟨[["repo", "binary-amd64"]], []⟩
    ["repo"] "amd64" [] (by decide)).1

/-- C7: `MakeEnclosingDirectories` leaves the state unchanged and succeeds
when the path is an existing directory, creates the whole directory chain
when the path is absent, and fails when the path exists and is not a
directory; `WriteFile` propagates an enclosing-directory failure wrapped
with the source's message, and otherwise writes the reader's contents at
the target path. -/
theorem file_utils_contract (fm : FaultModel) (fs : FS) (p : Path) (data : String)
    (e : FsErr) :
    (statIsDir fs p = some true → MakeEnclosingDirectories fm fs p = (fs, none)) ∧
    (statIsDir fs p = some false →
      MakeEnclosingDirectories fm fs p = (fs, some (.notDirectory p))) ∧
    (statIsDir fs p = none → fm.mkdirFails p = false →
      MakeEnclosingDirectories fm fs p =
        ({ fs with dirs := fs.dirs ++ initSegs p }, none)) ∧
    ((MakeEnclosingDirectories fm fs p.dropLast).2 = some e →
      (WriteFile fm fs (some data) p).2 =
        some (.wrapped "problem making enclosing directories" e)) ∧
    ((MakeEnclosingDirectories fm fs p.dropLast).2 = none → fm.writeFails p = false →
      (WriteFile fm fs (some data) p).2 = none ∧
      (p, FileContent.raw data) ∈ (WriteFile fm fs (some data) p).1.files) := by
  refine ⟨?_, ?_, ?_, ?_, ?_⟩
  · intro h
    simp [MakeEnclosingDirectories, h]
  · intro h
    simp [MakeEnclosingDirectories, h]
  · intro h hm
    simp [MakeEnclosingDirectories, h, mkdirAll, hm]
  · intro h
    rcases hm : MakeEnclosingDirectories fm fs p.dropLast with ⟨fs1, oe⟩
    rw [hm] at h
    simp at h
    subst h
    simp [WriteFile, hm]
  · intro h hw
    rcases hm : MakeEnclosingDirectories fm fs p.dropLast with ⟨fs1, oe⟩
    rw [hm] at h
    simp at h
    subst h
    simp [WriteFile, hm, hw, setFile]

theorem file_utils_contract_witness :
    (WriteFile ⟨fun _ => false, fun _ => false⟩ ⟨[], []⟩ (some "hello") ["d", "f"]).2 =
        none ∧
    (["d", "f"], FileContent.raw "hello") ∈
      (WriteFile ⟨fun _ => false, fun _ => false⟩ ⟨[], []⟩ (some "hello")
        ["d", "f"]).1.files :=
  (file_utils_contract ⟨fun _ => false, fun _ => false⟩ ⟨[], []⟩ ["d", "f"] "hello"
      (FsErr.copyFailed [])).2.2.2.2 (by decide) (by decide)

end Curator
